import Mathlib

/-!
Verification of the rustnet connection-tracking core against its design
specification.

The Rust sources are shallowly embedded:

* `src/network/types.rs`  — `TcpState`, `ProtocolState`, `TlsInfo`,
  `CryptoFrameReassembler` (with `add_fragment`, `update_contiguous_offset`,
  `get_contiguous_data`, `clear_fragments`, `set_complete_tls_info`),
  `Connection` and its `is_active`;
* `src/network/merge.rs`  — `update_tcp_state`, `merge_packet_into_connection`,
  `merge_dpi_info`;
* `src/network/mod.rs`    — the `NetworkMonitor` world (prefixed `M` here):
  `Connection::is_active` (60 s), `get_connections`, the per-packet map
  update of `process_packets`;
* `src/network/linux.rs`  — `get_platform_connections` (concatenation of the
  `ss` and `netstat` parses, `pcap` samples as fallback);
* `src/app.rs`            — `get_connection_key`, the insertion-order map and
  the sorting step of `on_tick`.

Modelling conventions: machine integers (`u64`, `usize`) are `Nat` (no claim
exercises wrap-around); wall-clock `SystemTime` and monotonic `Instant` are
`Nat` time stamps in whole seconds, threaded as explicit `now` parameters;
byte buffers `Vec<u8>` are `List Nat`; `BTreeMap<u64, Vec<u8>>` is an
offset-sorted association list; Rust's `format!`-string keys, which are
injective in the formatted components, are modelled as tuples of those
components; `f64` rate fields are carried as `Float` and never inspected.
-/

namespace Rustnet

/-- TCP states, from `types.rs` (`enum TcpState`). -/
inductive TcpState where
  | Listen
  | SynSent
  | SynReceived
  | Established
  | FinWait1
  | FinWait2
  | CloseWait
  | LastAck
  | TimeWait
  | Closing
  | Closed
  | Unknown
deriving DecidableEq, Repr

/-- TCP header flags, from `parser.rs` (`struct TcpFlags`), as consumed by
`update_tcp_state` (which reads only `syn`, `ack`, `fin`, `rst`). -/
structure TcpFlags where
  syn : Bool
  ack : Bool
  fin : Bool
  rst : Bool
  psh : Bool
  urg : Bool
deriving DecidableEq, Repr, Fintype

/-- `update_tcp_state` from `merge.rs` lines 12-45.  The Rust `match` on
`(current_state, flags.syn, flags.ack, flags.fin, flags.rst)` with
`is_outgoing` guards is rendered as a first-match `match` that additionally
scrutinises the direction; arm order is preserved. -/
def updateTcpState (currentState : TcpState) (flags : TcpFlags) (isOutgoing : Bool) : TcpState :=
  match currentState, flags.syn, flags.ack, flags.fin, flags.rst, isOutgoing with
  | .Unknown, true, false, false, false, false => .SynReceived
  | .Unknown, true, false, false, false, true => .SynSent
  | .Listen, true, false, false, false, false => .SynReceived
  | .Listen, true, false, false, false, true => .SynSent
  | .SynSent, true, true, false, false, false => .Established
  | .SynReceived, false, true, false, false, true => .Established
  | .Unknown, false, true, false, false, _ => .Established
  | .Established, false, _, true, false, true => .FinWait1
  | .Established, false, _, true, false, false => .CloseWait
  | .FinWait1, false, true, false, false, false => .FinWait2
  | .FinWait1, false, _, true, false, false => .Closing
  | .FinWait2, false, _, true, false, false => .TimeWait
  | .CloseWait, false, _, true, false, true => .LastAck
  | .LastAck, false, true, false, false, false => .Closed
  | .Closing, false, true, false, false, false => .TimeWait
  | _, _, _, _, true, _ => .Closed
  | _, _, _, _, _, _ => currentState

/-- A pure SYN flag set. -/
def synFlags : TcpFlags := ⟨true, false, false, false, false, false⟩

/-- A SYN+ACK flag set. -/
def synAckFlags : TcpFlags := ⟨true, true, false, false, false, false⟩

/-- A pure ACK flag set. -/
def ackFlags : TcpFlags := ⟨false, true, false, false, false, false⟩

/-- A pure FIN flag set. -/
def finFlags : TcpFlags := ⟨false, false, true, false, false, false⟩

/-- The packet script of the spec's boundary scenario:
SYN(out), SYN+ACK(in), ACK(out), FIN(out), ACK(in), FIN(in), ACK(out). -/
def handshakeTeardownScript : List (TcpFlags × Bool) :=
  [(synFlags, true), (synAckFlags, false), (ackFlags, true),
   (finFlags, true), (ackFlags, false), (finFlags, false), (ackFlags, true)]

/-- The sequence of states reached after each packet of a script, iterating
`update_tcp_state` from a start state. -/
def runTcpScript (start : TcpState) (script : List (TcpFlags × Bool)) : List TcpState :=
  (script.scanl (fun st p => updateTcpState st p.1 p.2) start).tail

/-- TLS protocol versions, from `types.rs` (`enum TlsVersion`). -/
inductive TlsVersion where
  | Ssl3
  | Tls10
  | Tls11
  | Tls12
  | Tls13
deriving DecidableEq, Repr

/-- Extracted TLS handshake information, from `types.rs` (`struct TlsInfo`). -/
structure TlsInfo where
  version : Option TlsVersion
  sni : Option String
  alpn : List String
  cipher_suite : Option Nat
deriving DecidableEq, Repr

/-- The `fragments` field of the reassembler: `BTreeMap<u64, Vec<u8>>`
modelled as an association list kept sorted by offset. -/
abbrev FragmentList := List (Nat × List Nat)

/-- `BTreeMap::insert`: place the binding at its sorted position, replacing
the value when the key is already present. -/
def btreeInsert (off : Nat) (d : List Nat) : FragmentList → FragmentList
  | [] => [(off, d)]
  | (o, v) :: rest =>
    if off < o then (off, d) :: (o, v) :: rest
    else if off = o then (off, d) :: rest
    else (o, v) :: btreeInsert off d rest

/-- `CryptoFrameReassembler` from `types.rs` lines 344-365. -/
structure CryptoFrameReassembler where
  fragments : FragmentList
  contiguous_offset : Nat
  has_complete_tls_info : Bool
  cached_tls_info : Option TlsInfo
  max_buffer_size : Nat
  current_buffer_size : Nat
  last_update : Nat
deriving DecidableEq, Repr

/-- `CryptoFrameReassembler::new` (`types.rs` lines 374-384); `Instant::now()`
is the explicit `now` argument. -/
def crNew (now : Nat) : CryptoFrameReassembler :=
  { fragments := []
    contiguous_offset := 0
    has_complete_tls_info := false
    cached_tls_info := none
    max_buffer_size := 64 * 1024
    current_buffer_size := 0
    last_update := now }

/-- The fragment-scan loop of `add_fragment` (`types.rs` lines 399-411):
`true` when the loop early-returns `Ok(())`, i.e. when the incoming span
`[off, dataEnd)` is an exact duplicate of a stored fragment or overlaps one
(first write wins). -/
def fragmentConflict (off dataEnd : Nat) : FragmentList → Bool
  | [] => false
  | (fragOff, fragData) :: rest =>
    let fragEnd := fragOff + fragData.length
    if off = fragOff ∧ dataEnd = fragEnd then true
    else if off < fragEnd ∧ dataEnd > fragOff then true
    else fragmentConflict off dataEnd rest

/-- The loop of `update_contiguous_offset` (`types.rs` lines 427-436):
walk the fragments in key order, extending `current` over each fragment that
starts at or below it, stopping at the first gap. -/
def advanceContiguous (current : Nat) : FragmentList → Nat
  | [] => current
  | (off, d) :: rest =>
    if off ≤ current then advanceContiguous (max current (off + d.length)) rest
    else current

/-- `CryptoFrameReassembler::update_contiguous_offset` (`types.rs` 424-439). -/
def updateContiguousOffset (r : CryptoFrameReassembler) : CryptoFrameReassembler :=
  { r with contiguous_offset := advanceContiguous r.contiguous_offset r.fragments }

/-- `CryptoFrameReassembler::add_fragment` (`types.rs` 387-421).  The Rust
signature `(&mut self, u64, Vec<u8>) -> Result<(), &str>` becomes a pair of
the returned `Result` and the post-state; `Instant::now()` is `now` (it is
written before the scan loop, so both `Ok` paths carry it). -/
def addFragment (r : CryptoFrameReassembler) (offset : Nat) (data : List Nat) (now : Nat) :
    Except String Unit × CryptoFrameReassembler :=
  if r.current_buffer_size + data.length > r.max_buffer_size then
    (Except.error "Fragment would exceed maximum buffer size", r)
  else if fragmentConflict offset (offset + data.length) r.fragments then
    (Except.ok (), { r with last_update := now })
  else
    (Except.ok (), updateContiguousOffset
      { r with last_update := now
               current_buffer_size := r.current_buffer_size + data.length
               fragments := btreeInsert offset data r.fragments })

/-- The accumulation loop of `get_contiguous_data` (`types.rs` 450-462):
`target` is `self.contiguous_offset`, `current` the cursor, `acc` the bytes
collected so far. -/
def collectContiguous (target : Nat) : Nat → List Nat → FragmentList → List Nat
  | _, acc, [] => acc
  | current, acc, (off, d) :: rest =>
    let p :=
      if off ≤ current then
        let skip := current - off
        if skip < d.length then (acc ++ d.drop skip, off + d.length) else (acc, current)
      else (acc, current)
    if p.2 ≥ target then p.1 else collectContiguous target p.2 p.1 rest

/-- `CryptoFrameReassembler::get_contiguous_data` (`types.rs` 442-469). -/
def getContiguousData (r : CryptoFrameReassembler) : Option (List Nat) :=
  if r.contiguous_offset = 0 then none
  else
    let result := collectContiguous r.contiguous_offset 0 [] r.fragments
    if result.isEmpty then none else some result

/-- `CryptoFrameReassembler::is_stale` (`types.rs` 472-474). -/
def crIsStale (r : CryptoFrameReassembler) (now : Nat) : Bool :=
  now - r.last_update > 30

/-- `CryptoFrameReassembler::clear_fragments` (`types.rs` 477-480). -/
def clearFragments (r : CryptoFrameReassembler) : CryptoFrameReassembler :=
  { r with fragments := [], current_buffer_size := 0 }

/-- `CryptoFrameReassembler::set_complete_tls_info` (`types.rs` 483-486). -/
def setCompleteTlsInfo (r : CryptoFrameReassembler) (info : TlsInfo) : CryptoFrameReassembler :=
  { r with has_complete_tls_info := true, cached_tls_info := some info }

/-- `CryptoFrameReassembler::get_cached_tls_info` (`types.rs` 489-495). -/
def getCachedTlsInfo (r : CryptoFrameReassembler) : Option TlsInfo :=
  if r.has_complete_tls_info then r.cached_tls_info else none

/-- Well-formedness of a fragment map with a lower bound on the next offset:
offsets sorted, each fragment nonempty, and fragments pairwise disjoint (each
fragment ends no later than the next begins).  States built by `add_fragment`
from nonempty data satisfy `wfFrom 0`. -/
def wfFrom (lb : Nat) : FragmentList → Bool
  | [] => true
  | (o, d) :: rest => if lb ≤ o ∧ d ≠ [] then wfFrom (o + d.length) rest else false

/-- The maximal run of exactly abutting fragments starting at `current`: the
byte sequence the spec calls "the concatenation, in ascending offset order,
of the stored fragments covering the contiguous prefix". -/
def specRun (current : Nat) : FragmentList → List Nat
  | [] => []
  | (o, d) :: rest => if o = current then d ++ specRun (o + d.length) rest else []

/-- Two fragments overlap when some byte position lies in both spans
(`max` of the starts below `min` of the ends; empty spans overlap nothing). -/
def fragsOverlap (a b : Nat × List Nat) : Prop :=
  max a.1 b.1 < min (a.1 + a.2.length) (b.1 + b.2.length)

/-- No two stored fragments overlap. -/
def nonOverlapping (l : FragmentList) : Prop :=
  l.Pairwise (fun a b => ¬ fragsOverlap a b)

/-- The reassembler invariant of the spec: the buffer cap is the constant
65536, the buffered size respects it, and stored fragments never overlap. -/
def crInv (r : CryptoFrameReassembler) : Prop :=
  r.max_buffer_size = 65536 ∧ r.current_buffer_size ≤ r.max_buffer_size
    ∧ nonOverlapping r.fragments

/-- A socket address.  The claims inspect addresses only through equality and
the loopback test, so the IP is carried as its numeric value (an IPv4 address
as the 32-bit big-endian integer). -/
structure SockAddr where
  ip : Nat
  port : Nat
deriving DecidableEq, Repr

/-- `IpAddr::is_loopback` for the numeric IPv4 encoding: `127.0.0.0/8`. -/
def ipIsLoopback (ip : Nat) : Bool :=
  ip / 16777216 = 127

/-- Transport protocols, from `types.rs` (`enum Protocol`). -/
inductive Protocol where
  | TCP
  | UDP
  | ICMP
  | ARP
deriving DecidableEq, Repr

/-- ARP operations, from `types.rs` (`enum ArpOperation`). -/
inductive ArpOperation where
  | Request
  | Reply
deriving DecidableEq, Repr

/-- Per-protocol connection state, from `types.rs` (`enum ProtocolState`). -/
inductive ProtocolState where
  | Tcp (state : TcpState)
  | Udp
  | Icmp (icmp_type : Nat) (icmp_code : Nat)
  | Arp (operation : ArpOperation)
deriving DecidableEq, Repr

/-- HTTP versions, from `types.rs` (`enum HttpVersion`). -/
inductive HttpVersion where
  | Http10
  | Http11
  | Http2
deriving DecidableEq, Repr

/-- HTTP request data, from `types.rs` (`struct HttpInfo`). -/
structure HttpInfo where
  version : HttpVersion
  method : Option String
  host : Option String
  path : Option String
  status_code : Option Nat
  user_agent : Option String
deriving DecidableEq, Repr

/-- HTTPS data, from `types.rs` (`struct HttpsInfo`). -/
structure HttpsInfo where
  tls_info : Option TlsInfo
deriving DecidableEq, Repr

/-- DNS data, from `types.rs` (`struct DnsInfo`); the 46-variant
`DnsQueryType` enum is carried as its numeric query-type code, and response
IPs as numeric addresses. -/
structure DnsInfo where
  query_name : Option String
  query_type : Option Nat
  response_ips : List Nat
  is_response : Bool
deriving DecidableEq, Repr

/-- QUIC long-header packet types, from `types.rs` (`enum QuicPacketType`). -/
inductive QuicPacketType where
  | Initial
  | ZeroRtt
  | Handshake
  | Retry
  | VersionNegotiation
  | OneRtt
  | Unknown
deriving DecidableEq, Repr

/-- QUIC connection states, from `types.rs` (`enum QuicConnectionState`). -/
inductive QuicConnectionState where
  | Initial
  | Handshaking
  | Connected
  | Draining
  | Closed
  | Unknown
deriving DecidableEq, Repr

/-- QUIC flow data, from `types.rs` (`struct QuicInfo`). -/
structure QuicInfo where
  version_string : Option String
  packet_type : QuicPacketType
  connection_id : List Nat
  connection_id_hex : Option String
  connection_state : QuicConnectionState
  tls_info : Option TlsInfo
  has_crypto_frame : Bool
  crypto_reassembler : Option CryptoFrameReassembler
deriving DecidableEq, Repr

/-- Application-layer classification, from `types.rs`
(`enum ApplicationProtocol`). -/
inductive ApplicationProtocol where
  | Http (info : HttpInfo)
  | Https (info : HttpsInfo)
  | Dns (info : DnsInfo)
  | Ssh
  | Quic (info : QuicInfo)
deriving DecidableEq, Repr

/-- DPI classification attached to a connection, from `types.rs`
(`struct DpiInfo`); the `Instant` fields are numeric time stamps. -/
structure DpiInfo where
  application : ApplicationProtocol
  first_packet_time : Nat
  last_update_time : Nat
deriving DecidableEq, Repr

/-- A DPI verdict produced by the packet decoder (`dpi.rs`,
`struct DpiResult`), as consumed by `merge.rs`. -/
structure DpiResult where
  application : ApplicationProtocol
deriving DecidableEq, Repr

/-- Transfer-rate bookkeeping, from `types.rs` (`struct RateInfo`); the `f64`
rates are carried opaquely and never inspected by any claim. -/
structure RateInfo where
  incoming_bps : Float
  outgoing_bps : Float
  last_calculation : Nat

/-- `RateInfo::default` (`types.rs` 523-531). -/
def rateInfoDefault (now : Nat) : RateInfo :=
  { incoming_bps := 0.0, outgoing_bps := 0.0, last_calculation := now }

/-- The per-flow record, from `types.rs` (`struct Connection`). -/
structure Connection where
  protocol : Protocol
  local_addr : SockAddr
  remote_addr : SockAddr
  remote_host : Option String
  protocol_state : ProtocolState
  pid : Option Nat
  process_name : Option String
  bytes_sent : Nat
  bytes_received : Nat
  packets_sent : Nat
  packets_received : Nat
  created_at : Nat
  last_activity : Nat
  service_name : Option String
  dpi_info : Option DpiInfo
  current_rate_bps : RateInfo
  rtt_estimate : Option Nat
  current_incoming_rate_bps : Float
  current_outgoing_rate_bps : Float

/-- `Connection::new` (`types.rs` 579-607); `SystemTime::now()` is `now`. -/
def Connection.mk0 (protocol : Protocol) (local_addr remote_addr : SockAddr)
    (state : ProtocolState) (now : Nat) : Connection :=
  { protocol := protocol
    local_addr := local_addr
    remote_addr := remote_addr
    remote_host := none
    protocol_state := state
    pid := none
    process_name := none
    bytes_sent := 0
    bytes_received := 0
    packets_sent := 0
    packets_received := 0
    created_at := now
    last_activity := now
    service_name := none
    dpi_info := none
    current_rate_bps := rateInfoDefault now
    rtt_estimate := none
    current_incoming_rate_bps := 0.0
    current_outgoing_rate_bps := 0.0 }

/-- `Connection::is_active` from `types.rs` lines 617-620: activity within
the last 300 seconds, a `last_activity` in the future counting as active
(`elapsed().unwrap_or_default()` yields 0 there, which truncated subtraction
models exactly). -/
def Connection.isActive (c : Connection) (now : Nat) : Bool :=
  now - c.last_activity < 300

/-- A parsed packet, from `parser.rs` (`struct ParsedPacket`), as consumed by
`merge.rs`. -/
structure ParsedPacket where
  connection_key : String
  protocol : Protocol
  local_addr : SockAddr
  remote_addr : SockAddr
  protocol_state : ProtocolState
  tcp_flags : Option TcpFlags
  is_outgoing : Bool
  packet_len : Nat
  dpi_result : Option DpiResult

/-- `merge_dpi_info` (`merge.rs` 153-166); `Instant::now()` is
`nowInstant`. -/
def mergeDpiInfo (conn : Connection) (dpiResult : DpiResult) (nowInstant : Nat) : Connection :=
  match conn.dpi_info with
  | none =>
    let info : DpiInfo :=
      { application := dpiResult.application
        first_packet_time := nowInstant
        last_update_time := nowInstant }
    { conn with dpi_info := some info }
  | some _ => conn

/-- `merge_packet_into_connection` (`merge.rs` 48-96), line for line: after
the branch that computes the TCP state (or copies the parser state for
non-TCP packets), line 88 unconditionally overwrites `protocol_state` with
`parsed.protocol_state`. -/
def mergePacketIntoConnection (conn : Connection) (parsed : ParsedPacket)
    (now : Nat) (nowInstant : Nat) : Connection :=
  let conn := { conn with last_activity := now }
  let conn :=
    if parsed.is_outgoing then
      { conn with packets_sent := conn.packets_sent + 1
                  bytes_sent := conn.bytes_sent + parsed.packet_len }
    else
      { conn with packets_received := conn.packets_received + 1
                  bytes_received := conn.bytes_received + parsed.packet_len }
  let conn :=
    match parsed.tcp_flags with
    | some flags =>
      let currentTcpState :=
        match conn.protocol_state with
        | ProtocolState.Tcp state => state
        | _ => TcpState.Unknown
      { conn with protocol_state :=
          ProtocolState.Tcp (updateTcpState currentTcpState flags parsed.is_outgoing) }
    | none => { conn with protocol_state := parsed.protocol_state }
  let conn := { conn with protocol_state := parsed.protocol_state }
  match parsed.dpi_result with
  | some dpiResult => mergeDpiInfo conn dpiResult nowInstant
  | none => conn

/-- An established TCP connection used as the C1 failing input. -/
def c1Connection : Connection :=
  Connection.mk0 Protocol.TCP ⟨0x0a000005, 54000⟩ ⟨0x08080808, 80⟩
    (ProtocolState.Tcp TcpState.Established) 0

/-- The C1 failing input packet: an outbound FIN whose parser-supplied state
is `Tcp(Unknown)`. -/
def c1Packet : ParsedPacket :=
  { connection_key := "TCP:10.0.0.5:54000-TCP:8.8.8.8:80"
    protocol := Protocol.TCP
    local_addr := ⟨0x0a000005, 54000⟩
    remote_addr := ⟨0x08080808, 80⟩
    protocol_state := ProtocolState.Tcp TcpState.Unknown
    tcp_flags := some finFlags
    is_outgoing := true
    packet_len := 60
    dpi_result := none }

/-- Protocols of the `NetworkMonitor` module, from `mod.rs`
(`enum Protocol`). -/
inductive MProtocol where
  | TCP
  | UDP
deriving DecidableEq, Repr

/-- Connection states of the `NetworkMonitor` module, from `mod.rs`
(`enum ConnectionState`). -/
inductive MConnectionState where
  | Established
  | SynSent
  | SynReceived
  | FinWait1
  | FinWait2
  | TimeWait
  | CloseWait
  | LastAck
  | Listen
  | Closing
  | Reset
  | Unknown
deriving DecidableEq, Repr

/-- The `NetworkMonitor` connection record, from `mod.rs`
(`struct Connection`). -/
structure MConnection where
  protocol : MProtocol
  local_addr : SockAddr
  remote_addr : SockAddr
  state : MConnectionState
  pid : Option Nat
  process_name : Option String
  bytes_sent : Nat
  bytes_received : Nat
  packets_sent : Nat
  packets_received : Nat
  created_at : Nat
  last_activity : Nat
deriving DecidableEq, Repr

/-- `Connection::new` from `mod.rs` lines 96-117; `SystemTime::now()` is
`now`. -/
def mConnectionNew (protocol : MProtocol) (local_addr remote_addr : SockAddr)
    (state : MConnectionState) (now : Nat) : MConnection :=
  { protocol := protocol
    local_addr := local_addr
    remote_addr := remote_addr
    state := state
    pid := none
    process_name := none
    bytes_sent := 0
    bytes_received := 0
    packets_sent := 0
    packets_received := 0
    created_at := now
    last_activity := now }

/-- `Connection::idle_time` from `mod.rs` lines 127-131
(`duration_since(last_activity).unwrap_or(0)` is truncated subtraction). -/
def mIdleTime (c : MConnection) (now : Nat) : Nat :=
  now - c.last_activity

/-- `Connection::is_active` from `mod.rs` lines 134-136: activity within the
last 60 seconds. -/
def mIsActive (c : MConnection) (now : Nat) : Bool :=
  mIdleTime c now < 60

/-- The flow identity of a monitor connection:
`(protocol, local_addr, remote_addr)`. -/
def mIdentity (c : MConnection) : MProtocol × SockAddr × SockAddr :=
  (c.protocol, c.local_addr, c.remote_addr)

/-- `connections_match`-style identity test used by `get_connections`
(`mod.rs` lines 249-253). -/
def mConnectionsMatch (a b : MConnection) : Bool :=
  a.protocol == b.protocol && a.local_addr == b.local_addr && a.remote_addr == b.remote_addr

/-- The packet-derived connection map `HashMap<String, Connection>` of the
monitor.  The `format!`-string key `"{proto}:{local}-{proto}:{remote}"` is
injective in `(protocol, local, remote)` and is modelled as that tuple. -/
abbrev MKey := MProtocol × SockAddr × SockAddr

/-- The packet map as an association list (iteration order models the
map's value iteration in `get_connections`). -/
abbrev PacketMap := List (MKey × MConnection)

/-- `HashMap::get` on the packet map. -/
def pmLookup (m : PacketMap) (k : MKey) : Option MConnection :=
  match m with
  | [] => none
  | (k1, c) :: rest => if k = k1 then some c else pmLookup rest k

/-- `HashMap::get_mut` followed by an in-place update. -/
def pmModify (m : PacketMap) (k : MKey) (f : MConnection → MConnection) : PacketMap :=
  match m with
  | [] => []
  | (k1, c) :: rest => if k = k1 then (k1, f c) :: rest else (k1, c) :: pmModify rest k f

/-- The TCP-flag-to-state table of `process_packets` (`mod.rs` 366-375). -/
def mStateFromFlags (flags : Nat) : MConnectionState :=
  if flags = 0x02 then .SynSent
  else if flags = 0x12 then .SynReceived
  else if flags = 0x10 then .Established
  else if flags = 0x01 then .FinWait1
  else if flags = 0x11 then .FinWait2
  else if flags = 0x04 then .Reset
  else if flags = 0x14 then .Closing
  else .Established

/-- The common counter update of `process_single_packet` (set
`last_activity := now`, then bump the directional packet and byte
counters). -/
def mCountPacket (isOutgoing : Bool) (dataLen : Nat) (now : Nat) (c : MConnection) :
    MConnection :=
  if isOutgoing then
    { c with last_activity := now, packets_sent := c.packets_sent + 1
             bytes_sent := c.bytes_sent + dataLen }
  else
    { c with last_activity := now, packets_received := c.packets_received + 1
             bytes_received := c.bytes_received + dataLen }

/-- The TCP branch of `process_single_packet` (`mod.rs` 352-422), given the
fields its Ethernet/IPv4 prefix extracts (`is_outgoing`, addresses, the raw
flag byte, the frame length). -/
def processSinglePacketTcp (m : PacketMap) (now : Nat) (isOutgoing : Bool)
    (srcAddr dstAddr : SockAddr) (flags : Nat) (dataLen : Nat) : PacketMap :=
  let state := mStateFromFlags flags
  let la := if isOutgoing then srcAddr else dstAddr
  let ra := if isOutgoing then dstAddr else srcAddr
  let key : MKey := (MProtocol.TCP, la, ra)
  match pmLookup m key with
  | some _ => pmModify m key (fun c => { mCountPacket isOutgoing dataLen now c with state := state })
  | none => m ++ [(key, mCountPacket isOutgoing dataLen now
      (mConnectionNew MProtocol.TCP la ra state now))]

/-- The UDP branch of `process_single_packet` (`mod.rs` 423-477): like TCP
but with no state update (new entries start `Unknown`). -/
def processSinglePacketUdp (m : PacketMap) (now : Nat) (isOutgoing : Bool)
    (srcAddr dstAddr : SockAddr) (dataLen : Nat) : PacketMap :=
  let la := if isOutgoing then srcAddr else dstAddr
  let ra := if isOutgoing then dstAddr else srcAddr
  let key : MKey := (MProtocol.UDP, la, ra)
  match pmLookup m key with
  | some _ => pmModify m key (mCountPacket isOutgoing dataLen now)
  | none => m ++ [(key, mCountPacket isOutgoing dataLen now
      (mConnectionNew MProtocol.UDP la ra MConnectionState.Unknown now))]

/-- `linux.rs::get_platform_connections` (lines 10-55): the vector
accumulates every entry parsed from `ss -tupn`, then every entry parsed from
`netstat -tupn` (no deduplication); only when both yield nothing does the
pcap fallback contribute its sample entries. -/
def getPlatformConnections (ssConns netstatConns pcapSamples : List MConnection) :
    List MConnection :=
  let connections := ssConns ++ netstatConns
  if connections.isEmpty then pcapSamples else connections

/-- The packet-map fusion loop of `get_connections` (`mod.rs` 247-258): each
packet-derived connection is appended only if no connection with the same
identity is already in the list being built and it is active (60 s). -/
def addPacketConnections (connections : List MConnection) (packetConns : List MConnection)
    (now : Nat) : List MConnection :=
  packetConns.foldl (fun acc conn =>
    if !(acc.any (fun c => mConnectionsMatch c conn)) && mIsActive conn now then
      acc ++ [conn]
    else acc) connections

/-- The process-info enrichment of one connection (`mod.rs` 261-271). -/
def enrichOne (lookupProc : MConnection → Option (Nat × String)) (c : MConnection) :
    MConnection :=
  if c.pid = none then
    match lookupProc c with
    | some (pid, name) => { c with pid := some pid, process_name := some name }
    | none => c
  else c

/-- `get_connections` (`mod.rs` 236-284): platform entries, then active
packet-derived entries not already present, optional process enrichment, a
stable sort by `last_activity` descending, and the optional
loopback-to-loopback filter. -/
def getConnections (platform : List MConnection) (packetMap : PacketMap) (now : Nat)
    (collectProcessInfo : Bool) (lookupProc : MConnection → Option (Nat × String))
    (filterLocalhost : Bool) : List MConnection :=
  let connections := addPacketConnections platform (packetMap.map (·.2)) now
  let connections :=
    if collectProcessInfo then connections.map (enrichOne lookupProc) else connections
  let connections :=
    List.insertionSort (fun a b => b.last_activity ≤ a.last_activity) connections
  if filterLocalhost then
    connections.filter (fun c =>
      !(ipIsLoopback c.local_addr.ip && ipIsLoopback c.remote_addr.ip))
  else connections

/-- The packet-map invariant: keys are pairwise distinct and each entry's key
is the flow identity of its connection (both hold at every insertion site of
`process_packets`). -/
def packetMapInv (m : PacketMap) : Prop :=
  (m.map Prod.fst).Pairwise (· ≠ ·) ∧ ∀ e ∈ m, e.1 = mIdentity e.2

/-- Pairwise-distinct flow identities in a connection list. -/
def distinctIdentities (l : List MConnection) : Prop :=
  l.Pairwise (fun a b => mIdentity a ≠ mIdentity b)

/-- The connection both `ss` and `netstat` report in the C4 counterexample. -/
def dupConn : MConnection :=
  mConnectionNew MProtocol.TCP ⟨0x0a000005, 54000⟩ ⟨0x08080808, 80⟩
    MConnectionState.Established 0

/-- The key of `App::get_connection_key` (`app.rs` 394-400): the
`format!`-string `"{protocol}-{local}-{remote}-{state}"`, injective in its
components, modelled as the component tuple.  Note that the connection STATE
is part of the key. -/
abbrev AppKey := MProtocol × SockAddr × SockAddr × MConnectionState

/-- `App::get_connection_key` (`app.rs` 394-400). -/
def getConnectionKey (c : MConnection) : AppKey :=
  (c.protocol, c.local_addr, c.remote_addr, c.state)

/-- The `connection_order: HashMap<String, usize>` of `App`, as an
association list. -/
abbrev OrderMap := List (AppKey × Nat)

/-- `HashMap::get` / `contains_key` on the order map. -/
def omLookup (om : OrderMap) (k : AppKey) : Option Nat :=
  match om with
  | [] => none
  | (k1, v) :: rest => if k = k1 then some v else omLookup rest k

/-- The ordering state of `App`: `connection_order` and
`next_order_index`. -/
structure AppOrderState where
  connection_order : OrderMap
  next_order_index : Nat
deriving DecidableEq, Repr

/-- The token-assignment loop of `on_tick` (`app.rs` 249-255): insert a fresh
index for every key not yet present. -/
def assignOrderTokens (st : AppOrderState) (keys : List AppKey) : AppOrderState :=
  keys.foldl (fun s k =>
    if (omLookup s.connection_order k).isSome then s
    else { connection_order := s.connection_order ++ [(k, s.next_order_index)]
           next_order_index := s.next_order_index + 1 }) st

/-- `usize::MAX`, the default sort key for a missing order entry
(`app.rs` 262-263). -/
def usizeMax : Nat := 2 ^ 64 - 1

/-- The sort key of a connection in `on_tick`'s comparator. -/
def orderValue (om : OrderMap) (c : MConnection) : Nat :=
  (omLookup om (getConnectionKey c)).getD usizeMax

/-- `App::on_tick` (`app.rs` 232-293), restricted to its ordering effect:
collect the keys of the new connection list, assign insertion-order tokens to
unseen keys, and stably sort the list by token (`sort_by` on the looked-up
order values; `insertionSort` models Rust's stable sort).  The
selection-restore tail of `on_tick` reads but never writes the ordering
state. -/
def onTick (st : AppOrderState) (newConnections : List MConnection) :
    AppOrderState × List MConnection :=
  let keys := newConnections.map getConnectionKey
  let st1 := assignOrderTokens st keys
  (st1, List.insertionSort
    (fun a b => orderValue st1.connection_order a ≤ orderValue st1.connection_order b)
    newConnections)

/-- Flow A as first observed (state `SynSent`). -/
def cA1 : MConnection :=
  mConnectionNew MProtocol.TCP ⟨0x0a000001, 1000⟩ ⟨0x08080808, 443⟩
    MConnectionState.SynSent 0

/-- Flow A after its state advanced to `Established`: same flow identity,
different `get_connection_key`. -/
def cA2 : MConnection :=
  { cA1 with state := MConnectionState.Established }

/-- Flow B, observed after A. -/
def cB : MConnection :=
  mConnectionNew MProtocol.TCP ⟨0x0a000002, 2000⟩ ⟨0x08080809, 443⟩
    MConnectionState.Established 0

/-- Claim C2 (counterexample): driving the TCP state engine from `Unknown`
through SYN(out), SYN+ACK(in), ACK(out), FIN(out), ACK(in), FIN(in), ACK(out)
never visits `Closed`; the claimed final `Closed` state is not reached
(the engine has no transition out of `TimeWait` except RST). -/
theorem tcp_script_never_reaches_closed :
    TcpState.Closed ∉ runTcpScript TcpState.Unknown handshakeTeardownScript := by
  decide

/-- Claim C2 (amended): from `Unknown`, the script SYN(out), SYN+ACK(in),
ACK(out), FIN(out), ACK(in), FIN(in), ACK(out) visits
SynSent, Established, FinWait1, FinWait2, TimeWait in that order — the
mid-handshake ACK and the final outbound ACK leave the state unchanged, so the
flow ends in `TimeWait`, not `Closed`. -/
theorem tcp_script_states :
    runTcpScript TcpState.Unknown handshakeTeardownScript =
      [TcpState.SynSent, TcpState.Established, TcpState.Established,
       TcpState.FinWait1, TcpState.FinWait2, TcpState.TimeWait, TcpState.TimeWait] := by
  decide

/-- Claim C10: `Closed` is absorbing for `update_tcp_state`: every flag
combination in every direction maps `Closed` to `Closed`. -/
theorem closed_is_absorbing :
    ∀ (flags : TcpFlags) (isOutgoing : Bool),
      updateTcpState TcpState.Closed flags isOutgoing = TcpState.Closed := by
  decide

/-- If the incoming span exactly matches a stored fragment (same offset, same
length), the scan loop of `add_fragment` early-returns `Ok`. -/
theorem fragmentConflict_of_mem {off : Nat} {dOld : List Nat} {l : FragmentList}
    (hmem : (off, dOld) ∈ l) {dataEnd : Nat} (hlen : dataEnd = off + dOld.length) :
    fragmentConflict off dataEnd l = true := by
  induction l with
  | nil => cases hmem
  | cons hd tl ih =>
    rcases List.mem_cons.1 hmem with h | h
    · subst h
      subst hlen
      simp [fragmentConflict]
    · simp only [fragmentConflict]
      split
      · rfl
      · split
        · rfl
        · exact ih h

/-- Claim C6: `add_fragment` fails (with the buffer-limit error) exactly when
`current_buffer_size + |data| > max_buffer_size = 65536`, and on failure the
reassembler state is completely unchanged. -/
theorem addFragment_bufferLimit (r : CryptoFrameReassembler) (offset : Nat) (data : List Nat)
    (now : Nat) (hmax : r.max_buffer_size = 65536) :
    ((addFragment r offset data now).1 = Except.error "Fragment would exceed maximum buffer size"
      ↔ r.current_buffer_size + data.length > 65536)
    ∧ (r.current_buffer_size + data.length > 65536 → (addFragment r offset data now).2 = r) := by
  unfold addFragment
  rw [hmax]
  by_cases hc : r.current_buffer_size + data.length > 65536
  · rw [if_pos hc]
    exact ⟨⟨fun _ => hc, fun _ => rfl⟩, fun _ => rfl⟩
  · rw [if_neg hc]
    refine ⟨⟨fun h => ?_, fun h => absurd h hc⟩, fun h => absurd h hc⟩
    exfalso
    split at h <;> simp at h

/-- Claim C6 witness: a reassembler one byte below its cap rejects a two-byte
fragment and is left untouched, while the same call with a one-byte fragment
is not rejected. -/
theorem addFragment_bufferLimit_witness :
    ((addFragment ⟨[], 0, false, none, 65536, 65535, 0⟩ 0 [1, 2] 9).1 =
        Except.error "Fragment would exceed maximum buffer size")
    ∧ (addFragment ⟨[], 0, false, none, 65536, 65535, 0⟩ 0 [1, 2] 9).2 =
        ⟨[], 0, false, none, 65536, 65535, 0⟩
    ∧ ¬ ((addFragment ⟨[], 0, false, none, 65536, 65535, 0⟩ 0 [7] 9).1 =
        Except.error "Fragment would exceed maximum buffer size") := by
  have h := addFragment_bufferLimit ⟨[], 0, false, none, 65536, 65535, 0⟩ 0 [1, 2] 9 rfl
  have h1 := addFragment_bufferLimit ⟨[], 0, false, none, 65536, 65535, 0⟩ 0 [7] 9 rfl
  refine ⟨h.1.2 (by decide), h.2 (by decide), fun hc => ?_⟩
  have := h1.1.1 hc
  simp at this

/-- A first `add_fragment (0, d)` with `|d| = 40960` on a fresh reassembler
succeeds and stores the fragment, advancing the contiguous offset to 40960. -/
theorem addFragment_first_40960 (d : List Nat) (hd : d.length = 40960) :
    (addFragment (crNew 0) 0 d 0).1 = Except.ok ()
    ∧ (addFragment (crNew 0) 0 d 0).2 =
      ⟨[(0, d)], 40960, false, none, 65536, 40960, 0⟩ := by
  constructor
  · simp [addFragment, crNew, fragmentConflict, hd]
  · simp [addFragment, crNew, fragmentConflict, btreeInsert, updateContiguousOffset,
      advanceContiguous, hd]

/-- A second `add_fragment` of the exact same span on the resulting state is
rejected by the buffer-limit check before the duplicate check can run. -/
theorem addFragment_second_40960 (d : List Nat) (hd : d.length = 40960) :
    (addFragment (⟨[(0, d)], 40960, false, none, 65536, 40960, 0⟩ :
        CryptoFrameReassembler) 0 d 1).1 =
      Except.error "Fragment would exceed maximum buffer size" := by
  simp [addFragment, hd]

/-- Claim C5 (counterexample): the buffer-limit check runs before the
duplicate check, so an exact duplicate of a stored 40960-byte fragment is
rejected with the buffer-limit error instead of being accepted as a no-op
(40960 + 40960 > 65536). -/
theorem addFragment_duplicate_rejected :
    (addFragment (crNew 0) 0 (List.replicate 40960 0) 0).1 = Except.ok ()
    ∧ (addFragment ((addFragment (crNew 0) 0 (List.replicate 40960 0) 0).2)
        0 (List.replicate 40960 0) 1).1 =
      Except.error "Fragment would exceed maximum buffer size" := by
  have hd : (List.replicate 40960 (0 : Nat)).length = 40960 := List.length_replicate ..
  refine ⟨(addFragment_first_40960 _ hd).1, ?_⟩
  rw [(addFragment_first_40960 _ hd).2]
  exact addFragment_second_40960 _ hd

/-- Claim C5 (amended): provided the buffer-limit check passes
(`current_buffer_size + |data| ≤ max_buffer_size`), re-adding a fragment whose
offset and length match a stored fragment returns success and leaves the
fragment map, `current_buffer_size` and `contiguous_offset` unchanged (only
`last_update` is refreshed). -/
theorem addFragment_duplicate_noop (r : CryptoFrameReassembler) (off : Nat)
    (data dOld : List Nat) (now : Nat)
    (hmem : (off, dOld) ∈ r.fragments) (hlen : dOld.length = data.length)
    (hcap : r.current_buffer_size + data.length ≤ r.max_buffer_size) :
    (addFragment r off data now).1 = Except.ok ()
    ∧ (addFragment r off data now).2.fragments = r.fragments
    ∧ (addFragment r off data now).2.current_buffer_size = r.current_buffer_size
    ∧ (addFragment r off data now).2.contiguous_offset = r.contiguous_offset := by
  have hconf : fragmentConflict off (off + data.length) r.fragments = true :=
    fragmentConflict_of_mem hmem (by rw [hlen])
  unfold addFragment
  rw [if_neg (by omega), if_pos hconf]
  exact ⟨rfl, rfl, rfl, rfl⟩

/-- Claim C5 witness: with fragment `(0, [5, 6])` stored and 2 spare bytes of
budget, adding `(0, [7, 8])` (same offset and length, different bytes) is a
successful no-op on the fragment map, buffer size and contiguous offset. -/
theorem addFragment_duplicate_noop_witness :
    ((0, [5, 6]) ∈ (⟨[(0, [5, 6])], 2, false, none, 65536, 2, 0⟩ :
        CryptoFrameReassembler).fragments)
    ∧ (addFragment ⟨[(0, [5, 6])], 2, false, none, 65536, 2, 0⟩ 0 [7, 8] 9).1 = Except.ok ()
    ∧ (addFragment ⟨[(0, [5, 6])], 2, false, none, 65536, 2, 0⟩ 0 [7, 8] 9).2.fragments =
        [(0, [5, 6])] := by
  refine ⟨by decide, ?_, ?_⟩
  · exact (addFragment_duplicate_noop _ 0 [7, 8] [5, 6] 9 (by decide) (by decide) (by decide)).1
  · exact (addFragment_duplicate_noop _ 0 [7, 8] [5, 6] 9 (by decide) (by decide) (by decide)).2.1

/-- On a well-formed fragment map the `update_contiguous_offset` loop computes
exactly the end of the abutting run. -/
theorem advanceContiguous_eq_specRun {l : FragmentList} :
    ∀ {c : Nat}, wfFrom c l = true → advanceContiguous c l = c + (specRun c l).length := by
  induction l with
  | nil => intro c _; simp [advanceContiguous, specRun]
  | cons hd tl ih =>
    intro c hwf
    obtain ⟨o, d⟩ := hd
    simp only [wfFrom] at hwf
    split at hwf
    · rename_i hcond
      obtain ⟨hle, hne⟩ := hcond
      by_cases heq : o = c
      · subst heq
        simp only [advanceContiguous, specRun, if_pos (le_refl o), if_pos rfl]
        rw [Nat.max_eq_right (Nat.le_add_right o d.length)]
        rw [ih hwf]
        simp [Nat.add_assoc]
      · have hlt : c < o := lt_of_le_of_ne hle (fun h => heq h.symm)
        simp only [advanceContiguous, specRun, if_neg (Nat.not_le.2 hlt), if_neg heq]
        simp
    · exact absurd hwf (by simp)

/-- On a well-formed fragment map, when the target equals the end of the
abutting run, the `get_contiguous_data` loop returns the accumulated bytes
followed by that run. -/
theorem collectContiguous_eq_specRun {l : FragmentList} :
    ∀ {c : Nat} (acc : List Nat), wfFrom c l = true →
      collectContiguous (c + (specRun c l).length) c acc l = acc ++ specRun c l := by
  induction l with
  | nil => intro c acc _; simp [collectContiguous, specRun]
  | cons hd tl ih =>
    intro c acc hwf
    obtain ⟨o, d⟩ := hd
    simp only [wfFrom] at hwf
    split at hwf
    · rename_i hcond
      obtain ⟨hle, hne⟩ := hcond
      have hdpos : 0 < d.length := List.length_pos.2 hne
      by_cases heq : o = c
      · subst heq
        have hspec : specRun o ((o, d) :: tl) = d ++ specRun (o + d.length) tl := by
          simp [specRun]
        have hcol : ∀ target, collectContiguous target o acc ((o, d) :: tl) =
            if o + d.length ≥ target then acc ++ d
            else collectContiguous target (o + d.length) (acc ++ d) tl := by
          intro target
          simp [collectContiguous, hdpos]
        rw [hspec, hcol]
        by_cases hrest : (specRun (o + d.length) tl).length = 0
        · have hnil : specRun (o + d.length) tl = [] := List.length_eq_zero.1 hrest
          rw [hnil, if_pos (by simp)]
          simp
        · have htar : o + (d ++ specRun (o + d.length) tl).length =
              o + d.length + (specRun (o + d.length) tl).length := by
            simp [Nat.add_assoc]
          rw [if_neg (by rw [List.length_append]; omega), htar, ih (acc ++ d) hwf]
          simp
      · have hlt : c < o := lt_of_le_of_ne hle (fun h => heq h.symm)
        have hspec0 : specRun c ((o, d) :: tl) = [] := by
          simp only [specRun, if_neg heq]
        rw [hspec0]
        simp only [List.length_nil, Nat.add_zero, List.append_nil]
        simp [collectContiguous, Nat.not_le.2 hlt]
    · exact absurd hwf (by simp)

/-- Claim C7: on a well-formed reassembler state (sorted, disjoint, nonempty
fragments, with `contiguous_offset` as computed by
`update_contiguous_offset`), `get_contiguous_data` returns `none` exactly when
`contiguous_offset = 0`, and otherwise returns precisely the abutting run of
stored fragments covering `[0, contiguous_offset)`, whose length is
`contiguous_offset`. -/
theorem getContiguousData_spec (r : CryptoFrameReassembler)
    (hwf : wfFrom 0 r.fragments = true)
    (hco : r.contiguous_offset = advanceContiguous 0 r.fragments) :
    (r.contiguous_offset = 0 → getContiguousData r = none)
    ∧ (r.contiguous_offset ≠ 0 →
        getContiguousData r = some (specRun 0 r.fragments)
        ∧ (specRun 0 r.fragments).length = r.contiguous_offset) := by
  have hlen : r.contiguous_offset = (specRun 0 r.fragments).length := by
    rw [hco, advanceContiguous_eq_specRun hwf]
    omega
  constructor
  · intro h0
    unfold getContiguousData
    rw [if_pos h0]
  · intro hne
    have hcollect : collectContiguous r.contiguous_offset 0 [] r.fragments =
        specRun 0 r.fragments := by
      have := collectContiguous_eq_specRun (c := 0) [] hwf
      simpa [hlen] using this
    have hres : ¬ (specRun 0 r.fragments).isEmpty = true := by
      rw [List.isEmpty_iff_length_eq_zero]
      omega
    constructor
    · unfold getContiguousData
      rw [if_neg hne, hcollect, if_neg hres]
    · omega

/-- Claim C7 witness: fragments `(0, [1, 2])`, `(2, [3])`, `(5, [9])` with
`contiguous_offset = 3`: the contiguous data is `[1, 2, 3]`, of length 3, and
the trailing fragment at offset 5 is not included. -/
theorem getContiguousData_spec_witness :
    getContiguousData ⟨[(0, [1, 2]), (2, [3]), (5, [9])], 3, false, none, 65536, 4, 0⟩ =
      some [1, 2, 3]
    ∧ (3 : Nat) ≠ 0 := by
  have h := getContiguousData_spec
    ⟨[(0, [1, 2]), (2, [3]), (5, [9])], 3, false, none, 65536, 4, 0⟩ (by decide) (by decide)
  have h2 := h.2 (by decide)
  exact ⟨by rw [h2.1]; decide, by decide⟩

/-- When the scan loop falls through (no early return), the incoming span
overlaps none of the stored fragments. -/
theorem not_overlap_of_fragmentConflict_false {off : Nat} {d : List Nat} {l : FragmentList}
    (h : fragmentConflict off (off + d.length) l = false) :
    ∀ x ∈ l, ¬ fragsOverlap (off, d) x := by
  induction l with
  | nil => intro x hx; cases hx
  | cons hd tl ih =>
    intro x hx
    simp only [fragmentConflict] at h
    split at h
    · cases h
    · split at h
      · cases h
      · rename_i h1 h2
        rcases List.mem_cons.1 hx with hx | hx
        · subst hx
          unfold fragsOverlap
          simp only [not_and, not_lt] at h2 ⊢
          omega
        · exact ih h x hx

/-- Membership in a `btreeInsert` result: the inserted binding or an original
one. -/
theorem mem_btreeInsert {off : Nat} {d : List Nat} {l : FragmentList} {x : Nat × List Nat}
    (h : x ∈ btreeInsert off d l) : x = (off, d) ∨ x ∈ l := by
  induction l with
  | nil => simpa [btreeInsert] using h
  | cons hd tl ih =>
    unfold btreeInsert at h
    split at h
    · rcases List.mem_cons.1 h with h | h
      · exact Or.inl h
      · exact Or.inr h
    · split at h
      · rcases List.mem_cons.1 h with h | h
        · exact Or.inl h
        · exact Or.inr (List.mem_cons_of_mem _ h)
      · rcases List.mem_cons.1 h with h | h
        · exact Or.inr (h ▸ List.mem_cons_self _ _)
        · rcases ih h with h | h
          · exact Or.inl h
          · exact Or.inr (List.mem_cons_of_mem _ h)

/-- `btreeInsert` preserves a symmetric pairwise relation, provided the
inserted binding is related to every original one. -/
theorem pairwise_btreeInsert {R : Nat × List Nat → Nat × List Nat → Prop}
    (hsym : ∀ a b, R a b → R b a) {l : FragmentList} (hp : l.Pairwise R)
    {off : Nat} {d : List Nat} (hx : ∀ x ∈ l, R (off, d) x) :
    (btreeInsert off d l).Pairwise R := by
  induction l with
  | nil => exact List.pairwise_singleton R (off, d)
  | cons hd tl ih =>
    rw [List.pairwise_cons] at hp
    unfold btreeInsert
    split
    · exact List.Pairwise.cons hx (List.pairwise_cons.2 hp)
    · split
      · exact List.Pairwise.cons (fun y hy => hx y (List.mem_cons_of_mem _ hy)) hp.2
      · refine List.Pairwise.cons (fun y hy => ?_) (ih hp.2 (fun y hy => hx y (List.mem_cons_of_mem _ hy)))
        rcases mem_btreeInsert hy with h | h
        · exact h ▸ hsym _ _ (hx hd (List.mem_cons_self _ _))
        · exact hp.1 y h

/-- The `update_contiguous_offset` loop never decreases its cursor. -/
theorem advanceContiguous_ge {l : FragmentList} : ∀ {c : Nat}, c ≤ advanceContiguous c l := by
  induction l with
  | nil => intro c; simp [advanceContiguous]
  | cons hd tl ih =>
    intro c
    obtain ⟨o, d⟩ := hd
    unfold advanceContiguous
    split
    · exact le_trans (Nat.le_max_left c (o + d.length)) ih
    · exact le_refl c

/-- Claim C8: every reassembler operation — `add_fragment` (on any input and
on every outcome), `clear_fragments`, `set_complete_tls_info` — preserves the
invariants `current_buffer_size ≤ max_buffer_size = 65536` and
fragment non-overlap, and never decreases `contiguous_offset`. -/
theorem reassembler_ops_preserve_invariants (r : CryptoFrameReassembler) (hinv : crInv r) :
    (∀ (offset : Nat) (data : List Nat) (now : Nat),
        crInv (addFragment r offset data now).2
        ∧ r.contiguous_offset ≤ (addFragment r offset data now).2.contiguous_offset)
    ∧ (crInv (clearFragments r)
        ∧ r.contiguous_offset ≤ (clearFragments r).contiguous_offset)
    ∧ ∀ info : TlsInfo, crInv (setCompleteTlsInfo r info)
        ∧ r.contiguous_offset ≤ (setCompleteTlsInfo r info).contiguous_offset := by
  obtain ⟨hmax, hsize, hnov⟩ := hinv
  refine ⟨?_, ⟨⟨hmax, by simp [clearFragments], by simp [clearFragments, nonOverlapping]⟩,
      le_refl _⟩,
    fun info => ⟨⟨hmax, hsize, hnov⟩, le_refl _⟩⟩
  intro offset data now
  unfold addFragment
  by_cases hc : r.current_buffer_size + data.length > r.max_buffer_size
  · rw [if_pos hc]
    exact ⟨⟨hmax, hsize, hnov⟩, le_refl _⟩
  · rw [if_neg hc]
    by_cases hf : fragmentConflict offset (offset + data.length) r.fragments = true
    · rw [if_pos hf]
      exact ⟨⟨hmax, hsize, hnov⟩, le_refl _⟩
    · rw [if_neg hf]
      have hff : fragmentConflict offset (offset + data.length) r.fragments = false :=
        Bool.not_eq_true _ ▸ eq_false_of_ne_true hf
      refine ⟨⟨hmax, by simpa [updateContiguousOffset] using Nat.le_of_not_lt hc, ?_⟩, ?_⟩
      · show nonOverlapping (btreeInsert offset data r.fragments)
        exact pairwise_btreeInsert
          (fun a b h hba => h (by unfold fragsOverlap at hba ⊢; omega)) hnov
          (not_overlap_of_fragmentConflict_false hff)
      · exact advanceContiguous_ge

/-- Claim C8 witness: a valid one-fragment reassembler stays valid through an
`add_fragment` of a disjoint fragment, a `clear_fragments`, and a
`set_complete_tls_info`. -/
theorem reassembler_ops_witness :
    crInv ⟨[(0, [1])], 1, false, none, 65536, 1, 0⟩
    ∧ crInv (addFragment ⟨[(0, [1])], 1, false, none, 65536, 1, 0⟩ 5 [9] 3).2
    ∧ crInv (clearFragments ⟨[(0, [1])], 1, false, none, 65536, 1, 0⟩)
    ∧ crInv (setCompleteTlsInfo ⟨[(0, [1])], 1, false, none, 65536, 1, 0⟩
        ⟨none, none, [], none⟩) := by
  have hinv : crInv ⟨[(0, [1])], 1, false, none, 65536, 1, 0⟩ := by
    refine ⟨rfl, by norm_num, ?_⟩
    simp [nonOverlapping]
  have h := reassembler_ops_preserve_invariants _ hinv
  exact ⟨hinv, (h.1 5 [9] 3).1, h.2.1.1, (h.2.2 ⟨none, none, [], none⟩).1⟩

/-- Claim C1: the spec mandates that for TCP packets the state computed by
`update_tcp_state` wins over the parser-supplied `protocol_state`, but
`merge_packet_into_connection` (merge.rs line 88) unconditionally overwrites
the freshly computed state with `parsed.protocol_state`: merging an outbound
FIN into an `Established` connection yields the parser state `Tcp(Unknown)`
even though the state engine computes `Tcp(FinWait1)`. -/
theorem merge_overwrites_computed_tcp_state :
    (mergePacketIntoConnection c1Connection c1Packet 5 5).protocol_state =
      ProtocolState.Tcp TcpState.Unknown
    ∧ updateTcpState TcpState.Established finFlags true = TcpState.FinWait1
    ∧ TcpState.Unknown ≠ TcpState.FinWait1 := by
  exact ⟨rfl, rfl, by decide⟩

/-- Counter updates do not change a connection's flow identity. -/
theorem mIdentity_mCountPacket (o : Bool) (len now : Nat) (c : MConnection) :
    mIdentity (mCountPacket o len now c) = mIdentity c := by
  unfold mCountPacket mIdentity
  split <;> rfl

/-- Counter updates plus a state overwrite do not change a connection's flow
identity. -/
theorem mIdentity_mCountPacket_state (o : Bool) (len now : Nat) (s : MConnectionState)
    (c : MConnection) :
    mIdentity { mCountPacket o len now c with state := s } = mIdentity c := by
  unfold mCountPacket mIdentity
  split <;> rfl

/-- `pmModify` leaves the key sequence unchanged. -/
theorem pmModify_map_fst (m : PacketMap) (k : MKey) (f : MConnection → MConnection) :
    (pmModify m k f).map Prod.fst = m.map Prod.fst := by
  induction m with
  | nil => rfl
  | cons hd tl ih =>
    obtain ⟨k1, c⟩ := hd
    unfold pmModify
    split
    · rfl
    · simp only [List.map_cons, ih]

/-- Every entry of a `pmModify` result is an original entry with its value
possibly passed through the update function. -/
theorem mem_pmModify {m : PacketMap} {k : MKey} {f : MConnection → MConnection}
    {e : MKey × MConnection} (h : e ∈ pmModify m k f) :
    ∃ c0, (e.1, c0) ∈ m ∧ (e.2 = c0 ∨ e.2 = f c0) := by
  obtain ⟨ek, ec⟩ := e
  induction m with
  | nil => cases h
  | cons hd tl ih =>
    obtain ⟨k1, c⟩ := hd
    unfold pmModify at h
    split at h
    · rcases List.mem_cons.1 h with h | h
      · rw [Prod.mk.injEq] at h
        exact ⟨c, by rw [h.1]; exact List.mem_cons_self _ _, Or.inr h.2⟩
      · exact ⟨ec, List.mem_cons_of_mem _ h, Or.inl rfl⟩
    · rcases List.mem_cons.1 h with h | h
      · rw [Prod.mk.injEq] at h
        exact ⟨c, by rw [h.1]; exact List.mem_cons_self _ _, Or.inl h.2⟩
      · obtain ⟨c0, hc0, hor⟩ := ih h
        exact ⟨c0, List.mem_cons_of_mem _ hc0, hor⟩

/-- A failed lookup means no entry carries the key. -/
theorem pmLookup_none {m : PacketMap} {k : MKey} (h : pmLookup m k = none) :
    ∀ e ∈ m, e.1 ≠ k := by
  induction m with
  | nil => intro e he; cases he
  | cons hd tl ih =>
    obtain ⟨k1, c⟩ := hd
    unfold pmLookup at h
    split at h
    · cases h
    · rename_i hk
      intro e he
      rcases List.mem_cons.1 he with he | he
      · rw [he]
        exact fun hh => hk hh.symm
      · exact ih h e he

/-- `pmModify` with an identity-preserving update keeps the map invariant. -/
theorem pmModify_inv {m : PacketMap} {k : MKey} {f : MConnection → MConnection}
    (h : packetMapInv m) (hf : ∀ c, mIdentity (f c) = mIdentity c) :
    packetMapInv (pmModify m k f) := by
  obtain ⟨hkeys, hid⟩ := h
  constructor
  · rw [pmModify_map_fst]
    exact hkeys
  · intro e he
    obtain ⟨c0, hc0, hor⟩ := mem_pmModify he
    have h1 : e.1 = mIdentity c0 := hid (e.1, c0) hc0
    rcases hor with hh | hh
    · rw [hh]; exact h1
    · rw [hh, hf]; exact h1

/-- Appending a fresh entry whose key is its connection's identity keeps the
map invariant. -/
theorem append_fresh_inv {m : PacketMap} {k : MKey} {c : MConnection}
    (h : packetMapInv m) (hnone : pmLookup m k = none) (hkc : k = mIdentity c) :
    packetMapInv (m ++ [(k, c)]) := by
  obtain ⟨hkeys, hid⟩ := h
  constructor
  · rw [List.map_append, List.pairwise_append]
    refine ⟨hkeys, List.pairwise_singleton _ _, ?_⟩
    intro a ha b hb
    rw [List.map_singleton, List.mem_singleton] at hb
    subst hb
    obtain ⟨e, he, rfl⟩ := List.mem_map.1 ha
    exact pmLookup_none hnone e he
  · intro e he
    rcases List.mem_append.1 he with he | he
    · exact hid e he
    · rw [List.mem_singleton] at he
      rw [he]
      exact hkc

/-- The TCP packet step preserves the packet-map invariant. -/
theorem processTcp_preserves_inv (m : PacketMap) (now : Nat) (o : Bool)
    (src dst : SockAddr) (flags len : Nat) (h : packetMapInv m) :
    packetMapInv (processSinglePacketTcp m now o src dst flags len) := by
  simp only [processSinglePacketTcp]
  split
  · exact pmModify_inv h (fun c => mIdentity_mCountPacket_state ..)
  · rename_i hnone
    exact append_fresh_inv h hnone (by rw [mIdentity_mCountPacket]; rfl)

/-- The UDP packet step preserves the packet-map invariant. -/
theorem processUdp_preserves_inv (m : PacketMap) (now : Nat) (o : Bool)
    (src dst : SockAddr) (len : Nat) (h : packetMapInv m) :
    packetMapInv (processSinglePacketUdp m now o src dst len) := by
  simp only [processSinglePacketUdp]
  split
  · exact pmModify_inv h (fun c => mIdentity_mCountPacket ..)
  · rename_i hnone
    exact append_fresh_inv h hnone (by rw [mIdentity_mCountPacket]; rfl)

/-- Under the map invariant, no two map entries share a flow identity. -/
theorem packetMap_at_most_one_per_identity {m : PacketMap} (h : packetMapInv m) :
    m.Pairwise (fun a b => mIdentity a.2 ≠ mIdentity b.2) := by
  obtain ⟨hkeys, hid⟩ := h
  have h1 : m.Pairwise (fun a b => a.1 ≠ b.1) := List.pairwise_map.1 hkeys
  refine h1.imp_of_mem ?_
  intro a b ha hb hne
  rw [hid a ha, hid b hb] at hne
  exact hne

/-- The identity test of `get_connections` decides equality of flow
identities. -/
theorem mConnectionsMatch_iff {a b : MConnection} :
    mConnectionsMatch a b = true ↔ mIdentity a = mIdentity b := by
  unfold mConnectionsMatch mIdentity
  simp [Prod.ext_iff, Bool.and_eq_true, and_assoc]

/-- The packet-map fusion loop never introduces a duplicated identity. -/
theorem addPacket_distinct (now : Nat) (l : List MConnection) :
    ∀ acc : List MConnection, distinctIdentities acc →
      distinctIdentities (addPacketConnections acc l now) := by
  induction l with
  | nil => intro acc h; exact h
  | cons conn tl ih =>
    intro acc h
    rw [show addPacketConnections acc (conn :: tl) now =
        addPacketConnections
          (if !(acc.any fun c => mConnectionsMatch c conn) && mIsActive conn now then
            acc ++ [conn]
          else acc) tl now from rfl]
    apply ih
    by_cases hcond :
        (!(acc.any fun c => mConnectionsMatch c conn) && mIsActive conn now) = true
    · rw [if_pos hcond]
      rw [distinctIdentities, List.pairwise_append]
      refine ⟨h, List.pairwise_singleton _ _, ?_⟩
      intro a ha b hb
      rw [List.mem_singleton] at hb
      rw [hb]
      have hboth : acc.any (fun c => mConnectionsMatch c conn) = false
          ∧ mIsActive conn now = true := by
        simpa using hcond
      have hnm := List.any_eq_false.1 hboth.1 a ha
      intro heq
      exact hnm (mConnectionsMatch_iff.2 heq)
    · rw [if_neg hcond]
      exact h

/-- Process enrichment does not change a connection's flow identity. -/
theorem mIdentity_enrichOne (f : MConnection → Option (Nat × String)) (c : MConnection) :
    mIdentity (enrichOne f c) = mIdentity c := by
  unfold enrichOne mIdentity
  split
  · split <;> rfl
  · rfl

/-- `get_connections` preserves pairwise-distinct identities of the snapshot
list (the duplicates of the counterexample can only come from the snapshot
sources themselves). -/
theorem getConnections_distinct (platform : List MConnection) (m : PacketMap) (now : Nat)
    (ci : Bool) (lp : MConnection → Option (Nat × String)) (fl : Bool)
    (h : distinctIdentities platform) :
    distinctIdentities (getConnections platform m now ci lp fl) := by
  have h1 : distinctIdentities (addPacketConnections platform (m.map (·.2)) now) :=
    addPacket_distinct now _ platform h
  have h2 : distinctIdentities
      (if ci then (addPacketConnections platform (m.map (·.2)) now).map (enrichOne lp)
       else addPacketConnections platform (m.map (·.2)) now) := by
    split
    · rw [distinctIdentities, List.pairwise_map]
      refine h1.imp ?_
      intro a b hab
      rw [mIdentity_enrichOne, mIdentity_enrichOne]
      exact hab
    · exact h1
  have hperm := List.perm_insertionSort
    (fun a b : MConnection => b.last_activity ≤ a.last_activity)
    (if ci then (addPacketConnections platform (m.map (·.2)) now).map (enrichOne lp)
     else addPacketConnections platform (m.map (·.2)) now)
  have h3 := (hperm.pairwise_iff (fun hxy heq => hxy heq.symm)).2 h2
  simp only [getConnections]
  split
  · exact List.Pairwise.filter _ h3
  · exact h3

/-- Claim C4 (amended): the packet-derived map keeps its invariant across
packet events, so each flow identity maps to at most one map entry, and the
fusion loop of `get_connections` never appends an entry duplicating an
identity already present — hence whenever the snapshot sources themselves
contain no identity twice, neither does the presented list.  (The snapshot
sources are concatenated without deduplication, which is what the
counterexample exploits.) -/
theorem flow_identity_at_most_one_connection :
    (∀ (m : PacketMap) (now : Nat) (o : Bool) (src dst : SockAddr) (flags len : Nat),
        packetMapInv m → packetMapInv (processSinglePacketTcp m now o src dst flags len))
    ∧ (∀ (m : PacketMap) (now : Nat) (o : Bool) (src dst : SockAddr) (len : Nat),
        packetMapInv m → packetMapInv (processSinglePacketUdp m now o src dst len))
    ∧ (∀ m : PacketMap, packetMapInv m →
        m.Pairwise (fun a b => mIdentity a.2 ≠ mIdentity b.2))
    ∧ (∀ (platform : List MConnection) (m : PacketMap) (now : Nat) (ci : Bool)
        (lp : MConnection → Option (Nat × String)) (fl : Bool),
        distinctIdentities platform →
        distinctIdentities (getConnections platform m now ci lp fl)) :=
  ⟨fun m now o src dst flags len h => processTcp_preserves_inv m now o src dst flags len h,
   fun m now o src dst len h => processUdp_preserves_inv m now o src dst len h,
   fun _ h => packetMap_at_most_one_per_identity h,
   fun platform m now ci lp fl h => getConnections_distinct platform m now ci lp fl h⟩

/-- Claim C4 (counterexample): when `ss` and `netstat` both report the same
flow, `get_platform_connections` concatenates the two parses and
`get_connections` returns the same flow identity twice. -/
theorem getConnections_duplicate_identity :
    getConnections (getPlatformConnections [dupConn] [dupConn] []) [] 0 false
      (fun _ => none) false = [dupConn, dupConn]
    ∧ ¬ distinctIdentities [dupConn, dupConn] := by
  constructor
  · rfl
  · intro h
    simp [distinctIdentities] at h

/-- Claim C4 witness: the map invariant is established and preserved on a
fresh map receiving one TCP packet, and a duplicate-free platform list stays
duplicate-free through `get_connections`. -/
theorem flow_identity_witness :
    packetMapInv (processSinglePacketTcp [] 0 true ⟨1, 1⟩ ⟨2, 2⟩ 2 60)
    ∧ distinctIdentities
        (getConnections [dupConn] [] 0 false (fun _ => none) false) := by
  constructor
  · exact flow_identity_at_most_one_connection.1 [] 0 true ⟨1, 1⟩ ⟨2, 2⟩ 2 60
      ⟨List.Pairwise.nil, by intro e he; cases he⟩
  · exact flow_identity_at_most_one_connection.2.2.2 [dupConn] [] 0 false (fun _ => none)
      false (List.pairwise_singleton _ _)

/-- Claim C9 (counterexample): a packet-derived connection idle for 100 s —
well within the claimed 300-second threshold — fails the monitor's
`is_active` test (which uses 60 s) and is dropped from the presented list. -/
theorem is_active_uses_60_seconds :
    mIsActive { mConnectionNew MProtocol.UDP ⟨1, 1⟩ ⟨2, 2⟩ MConnectionState.Unknown 0 with
        last_activity := 900 } 1000 = false
    ∧ 1000 - ({ mConnectionNew MProtocol.UDP ⟨1, 1⟩ ⟨2, 2⟩ MConnectionState.Unknown 0 with
        last_activity := 900 } : MConnection).last_activity < 300
    ∧ getConnections [] [((MProtocol.UDP, ⟨1, 1⟩, ⟨2, 2⟩),
        { mConnectionNew MProtocol.UDP ⟨1, 1⟩ ⟨2, 2⟩ MConnectionState.Unknown 0 with
          last_activity := 900 })] 1000 false (fun _ => none) false = [] := by
  exact ⟨rfl, by decide, rfl⟩

/-- Packet-map connections survive the fusion loop only if active. -/
theorem mem_addPacketConnections {now : Nat} {l : List MConnection} :
    ∀ {acc c}, c ∈ addPacketConnections acc l now → c ∈ acc ∨ mIsActive c now = true := by
  induction l with
  | nil => intro acc c h; exact Or.inl h
  | cons conn tl ih =>
    intro acc c h
    rw [show addPacketConnections acc (conn :: tl) now =
        addPacketConnections
          (if !(acc.any fun x => mConnectionsMatch x conn) && mIsActive conn now then
            acc ++ [conn]
          else acc) tl now from rfl] at h
    rcases ih h with h1 | h1
    · by_cases hcond :
          (!(acc.any fun x => mConnectionsMatch x conn) && mIsActive conn now) = true
      · rw [if_pos hcond] at h1
        rcases List.mem_append.1 h1 with h2 | h2
        · exact Or.inl h2
        · rw [List.mem_singleton] at h2
          have hboth : acc.any (fun x => mConnectionsMatch x conn) = false
              ∧ mIsActive conn now = true := by
            simpa using hcond
          exact Or.inr (h2 ▸ hboth.2)
      · rw [if_neg hcond] at h1
        exact Or.inl h1
    · exact Or.inr h1

/-- Claim C9 (amended): the monitor's activity test `is_active` holds exactly
when `last_activity` is within 60 seconds of now (the `types.rs`
`Connection::is_active` uses 300 seconds), and every connection presented by
`get_connections` is either a snapshot entry or passes the 60-second test. -/
theorem activity_thresholds :
    (∀ (c : MConnection) (now : Nat), mIsActive c now = true ↔ now - c.last_activity < 60)
    ∧ (∀ (c : Connection) (now : Nat),
        Connection.isActive c now = true ↔ now - c.last_activity < 300)
    ∧ (∀ (platform : List MConnection) (m : PacketMap) (now : Nat)
        (lp : MConnection → Option (Nat × String)) (fl : Bool) (c : MConnection),
        c ∈ getConnections platform m now false lp fl →
        c ∈ platform ∨ mIsActive c now = true) := by
  refine ⟨fun c now => by simp [mIsActive, mIdleTime],
    fun c now => by simp [Connection.isActive], ?_⟩
  intro platform m now lp fl c hmem
  simp only [getConnections] at hmem
  have hsorted : c ∈ List.insertionSort
      (fun a b : MConnection => b.last_activity ≤ a.last_activity)
      (addPacketConnections platform (m.map (·.2)) now) := by
    split at hmem
    · exact (List.mem_filter.1 hmem).1
    · exact hmem
  have hbase := (List.perm_insertionSort
    (fun a b : MConnection => b.last_activity ≤ a.last_activity)
    (addPacketConnections platform (m.map (·.2)) now)).mem_iff.1 hsorted
  exact mem_addPacketConnections hbase

/-- Claim C9 witness: a connection idle for 10 s is active (10 < 60), one idle
for 100 s is active for the 300-second `types.rs` test, and a presented
packet-derived connection passes the 60-second test. -/
theorem activity_thresholds_witness :
    mIsActive (mConnectionNew MProtocol.UDP ⟨1, 1⟩ ⟨2, 2⟩ MConnectionState.Unknown 0) 10 = true
    ∧ Connection.isActive c1Connection 100 = true
    ∧ ((mConnectionNew MProtocol.UDP ⟨1, 1⟩ ⟨2, 2⟩ MConnectionState.Unknown 0) ∈
        ([] : List MConnection)
      ∨ mIsActive (mConnectionNew MProtocol.UDP ⟨1, 1⟩ ⟨2, 2⟩ MConnectionState.Unknown 0) 10 =
        true) := by
  refine ⟨(activity_thresholds.1 _ 10).2 (by decide),
    (activity_thresholds.2.1 c1Connection 100).2 (by decide), ?_⟩
  exact activity_thresholds.2.2 [] [((MProtocol.UDP, ⟨1, 1⟩, ⟨2, 2⟩),
    mConnectionNew MProtocol.UDP ⟨1, 1⟩ ⟨2, 2⟩ MConnectionState.Unknown 0)] 10
    (fun _ => none) false _ (by decide)

/-- A successful order-map lookup survives appending. -/
theorem omLookup_append {om : OrderMap} {k : AppKey} {v : Nat}
    (h : omLookup om k = some v) (om2 : OrderMap) :
    omLookup (om ++ om2) k = some v := by
  induction om with
  | nil => cases h
  | cons hd tl ih =>
    obtain ⟨k1, v1⟩ := hd
    rw [List.cons_append]
    unfold omLookup at h ⊢
    split at h
    · rename_i hk
      rw [if_pos hk]
      exact h
    · rename_i hk
      rw [if_neg hk]
      exact ih h

/-- Token assignment never changes an existing binding: a token, once
assigned to a key, is permanent. -/
theorem assignOrderTokens_preserves {keys : List AppKey} :
    ∀ {st : AppOrderState} {k : AppKey} {v : Nat},
      omLookup st.connection_order k = some v →
      omLookup (assignOrderTokens st keys).connection_order k = some v := by
  induction keys with
  | nil => intro st k v h; exact h
  | cons key tl ih =>
    intro st k v h
    rw [show assignOrderTokens st (key :: tl) =
        assignOrderTokens
          (if (omLookup st.connection_order key).isSome then st
           else { connection_order := st.connection_order ++ [(key, st.next_order_index)]
                  next_order_index := st.next_order_index + 1 }) tl from rfl]
    apply ih
    split
    · exact h
    · exact omLookup_append h _

/-- A lookup that is `isSome` stays `isSome` through token assignment. -/
theorem assignOrderTokens_isSome {keys : List AppKey} {st : AppOrderState} {k : AppKey}
    (h : (omLookup st.connection_order k).isSome) :
    (omLookup (assignOrderTokens st keys).connection_order k).isSome := by
  obtain ⟨v, hv⟩ := Option.isSome_iff_exists.1 h
  rw [assignOrderTokens_preserves hv]
  rfl

/-- Appending a binding for `k` to a map without one makes `k` resolvable. -/
theorem omLookup_append_self {om : OrderMap} {k : AppKey} (h : omLookup om k = none)
    (v : Nat) : omLookup (om ++ [(k, v)]) k = some v := by
  induction om with
  | nil => simp [omLookup]
  | cons hd tl ih =>
    obtain ⟨k1, v1⟩ := hd
    unfold omLookup at h
    split at h
    · cases h
    · rename_i hk
      rw [List.cons_append, omLookup, if_neg hk]
      exact ih h

/-- After token assignment every processed key has a token. -/
theorem assignOrderTokens_mem {keys : List AppKey} :
    ∀ {st : AppOrderState} {k : AppKey}, k ∈ keys →
      (omLookup (assignOrderTokens st keys).connection_order k).isSome := by
  induction keys with
  | nil => intro st k h; cases h
  | cons key tl ih =>
    intro st k h
    rw [show assignOrderTokens st (key :: tl) =
        assignOrderTokens
          (if (omLookup st.connection_order key).isSome then st
           else { connection_order := st.connection_order ++ [(key, st.next_order_index)]
                  next_order_index := st.next_order_index + 1 }) tl from rfl]
    rcases List.mem_cons.1 h with h | h
    · rw [h]
      by_cases hs : (omLookup st.connection_order key).isSome
      · rw [if_pos hs]
        exact assignOrderTokens_isSome hs
      · rw [if_neg hs]
        apply assignOrderTokens_isSome
        have hnone : omLookup st.connection_order key = none :=
          Option.not_isSome_iff_eq_none.1 hs
        rw [omLookup_append_self hnone]
        rfl
    · exact ih h

/-- Claim C3 (amended): insertion-order tokens are assigned per KEY
`(protocol, local, remote, state)` — exactly once, at first observation, and
never reassigned while present — and the presented list is sorted by these
tokens, so of two connections whose keys carry tokens `a < b`, the one with
token `a` precedes the other in the presented list.  Because the state is
part of the key, a flow whose TCP state changes receives a fresh (larger)
token, which is what the counterexample exploits. -/
theorem insertion_order_tokens (st : AppOrderState) (conns : List MConnection)
    (kA kB : AppKey) (a b : Nat)
    (hA : omLookup (onTick st conns).1.connection_order kA = some a)
    (hB : omLookup (onTick st conns).1.connection_order kB = some b)
    (hab : a < b) :
    (∀ (k : AppKey) (v : Nat), omLookup st.connection_order k = some v →
        omLookup (onTick st conns).1.connection_order k = some v)
    ∧ (∀ c ∈ conns,
        (omLookup (onTick st conns).1.connection_order (getConnectionKey c)).isSome)
    ∧ (∀ i j : Fin (onTick st conns).2.length,
        getConnectionKey ((onTick st conns).2.get i) = kA →
        getConnectionKey ((onTick st conns).2.get j) = kB → (i : Nat) < (j : Nat)) := by
  refine ⟨fun k v h => assignOrderTokens_preserves h,
    fun c hc => assignOrderTokens_mem (List.mem_map_of_mem getConnectionKey hc), ?_⟩
  intro i j hi hj
  have hA2 : omLookup
      (assignOrderTokens st (conns.map getConnectionKey)).connection_order kA = some a := hA
  have hB2 : omLookup
      (assignOrderTokens st (conns.map getConnectionKey)).connection_order kB = some b := hB
  have hsorted : List.Sorted (fun x y =>
      orderValue (assignOrderTokens st (conns.map getConnectionKey)).connection_order x ≤
      orderValue (assignOrderTokens st (conns.map getConnectionKey)).connection_order y)
      (onTick st conns).2 := by
    haveI : IsTotal MConnection (fun x y =>
        orderValue (assignOrderTokens st (conns.map getConnectionKey)).connection_order x ≤
        orderValue (assignOrderTokens st (conns.map getConnectionKey)).connection_order y) :=
      ⟨fun x y => Nat.le_total _ _⟩
    haveI : IsTrans MConnection (fun x y =>
        orderValue (assignOrderTokens st (conns.map getConnectionKey)).connection_order x ≤
        orderValue (assignOrderTokens st (conns.map getConnectionKey)).connection_order y) :=
      ⟨fun x y z h1 h2 => Nat.le_trans h1 h2⟩
    exact List.sorted_insertionSort _ conns
  have hvi : orderValue
      (assignOrderTokens st (conns.map getConnectionKey)).connection_order
      ((onTick st conns).2.get i) = a := by
    unfold orderValue
    rw [hi, hA2]
    rfl
  have hvj : orderValue
      (assignOrderTokens st (conns.map getConnectionKey)).connection_order
      ((onTick st conns).2.get j) = b := by
    unfold orderValue
    rw [hj, hB2]
    rfl
  by_contra hij
  rcases Nat.lt_or_ge (j : Nat) (i : Nat) with hj2 | hj2
  · have := hsorted.rel_get_of_lt (a := j) (b := i) hj2
    rw [hvi, hvj] at this
    omega
  · have hji : (i : Nat) = (j : Nat) := by omega
    have : i = j := Fin.ext hji
    rw [this, hvj] at hvi
    omega

/-- Claim C3 (counterexample): flows A then B are presented as `[A, B]`, but
after A's TCP state changes (same flow identity), the next tick presents
`[B, A]` — the token is reassigned because the state is part of the order
key, so A no longer precedes B although both flows are still present. -/
theorem order_token_reassigned_on_state_change :
    (onTick ⟨[], 0⟩ [cA1, cB]).2 = [cA1, cB]
    ∧ (onTick (onTick ⟨[], 0⟩ [cA1, cB]).1 [cA2, cB]).2 = [cB, cA2]
    ∧ mIdentity cA2 = mIdentity cA1 := by
  exact ⟨by decide, by decide, rfl⟩

/-- Claim C3 witness: on the first tick with flows A and B, A's key receives
token 0 and B's key token 1, tokens persist, every presented connection has a
token, and A (token 0) precedes B (token 1) in the presented list. -/
theorem insertion_order_tokens_witness :
    omLookup (onTick ⟨[], 0⟩ [cA1, cB]).1.connection_order (getConnectionKey cA1) = some 0
    ∧ (omLookup (onTick ⟨[], 0⟩ [cA1, cB]).1.connection_order (getConnectionKey cA1)).isSome
    := by
  refine ⟨by decide, ?_⟩
  exact (insertion_order_tokens ⟨[], 0⟩ [cA1, cB] (getConnectionKey cA1)
    (getConnectionKey cB) 0 1 (by decide) (by decide) (by decide)).2.1 cA1
    (List.mem_cons_self _ _)

end Rustnet
